import Mathlib

/-!
Shallow embedding of `src/react-client/src/App.tsx`: the typed-message
reducer over the worker data state, and the outer worker message handler.

Strings are modelled as lists of characters (`Str`); JavaScript's
`String.prototype.split` on a fixed non-empty separator is modelled by
`jsSplit`, and `Array.prototype.join` by `joinSep`.

The reducer ends in ts-pattern's `.run()`, which throws when no pattern
matches; it is therefore embedded as an `Option`-valued function, `none`
standing for the thrown error.
-/

/-- Strings as lists of characters. -/
abbrev Str := List Char

/-- Convert a Lean string literal to the character-list model. -/
def str (s : String) : Str := s.data

set_option linter.unusedVariables false in
/-- JavaScript `s.split(sep)` for a non-empty separator `sep`: scan left to
right, split at each non-overlapping occurrence of `sep`; the result is
never empty, and an empty input yields `[[]]` (JS `"".split(sep) = [""]`).
(For `sep = []` the code never calls it; this model then returns `[s]`.) -/
def jsSplit (sep : Str) (s : Str) : List Str :=
  if h : sep ≠ [] ∧ s.take sep.length = sep then
    [] :: jsSplit sep (s.drop sep.length)
  else
    match s with
    | [] => [[]]
    | c :: rest =>
      match jsSplit sep rest with
      | [] => [[c]]
      | piece :: pieces => (c :: piece) :: pieces
termination_by s.length
decreasing_by
  · have h1 : sep.length ≤ s.length := by
      have := congrArg List.length h.2
      simp [List.length_take] at this
      omega
    have h2 : sep.length ≠ 0 := by
      intro h0
      exact h.1 (List.length_eq_zero.mp h0)
    simp only [List.length_drop]
    omega
  · simp only [List.length_cons]
    omega

/-- JavaScript `rows.join(sep)`: interleave the separator between the
pieces. -/
def joinSep (sep : Str) : List Str → Str
  | [] => []
  | [x] => x
  | x :: y :: t => x ++ sep ++ joinSep sep (y :: t)

/-- The fixed delimiter the reducer splits chunk payload strings on
(`column.split("DELIMITER_TOKEN")` in `App.tsx`). -/
def delimiterToken : Str := str "DELIMITER_TOKEN"

/-- The `WorkerDataState` interface of `App.tsx`. -/
structure WorkerDataState where
  progress : Int
  chunk : List (List Str)
  header : List Str
  names : List Str
  result : Str
deriving DecidableEq, Repr

/-- The tagged messages arriving from the worker (`WorkerRecMessage`);
`unknown` stands for any message whose tag is none of the six recognized
ones, reaching the handler's `.otherwise` branch. -/
inductive WorkerRecMessage where
  | parsing (progress : Int)
  | chunk (payload : List Str)
  | header (payload : List Str)
  | sumCol (payload : Str)
  | names (payload : List Str)
  | addFilter (names : List Str)
  | unknown (tag : Str)
deriving DecidableEq, Repr

/-- The `Metadata` record held in auxiliary UI state. -/
structure Metadata where
  headerChecked : Bool
  headerCheckBoxDisabled : Bool
  selectedId : Int
deriving DecidableEq, Repr

/-- The reducer of `App.tsx` (lines 25–44): a ts-pattern match over the
five recognized tags, ending in `.run()`, which throws on anything else
(modelled by `none`). -/
def reducer (state : WorkerDataState) (action : WorkerRecMessage) :
    Option WorkerDataState :=
  match action with
  | .parsing progress => some { state with progress := progress }
  | .chunk payload =>
      some { state with
             chunk := payload.map (fun column => jsSplit delimiterToken column) }
  | .header h => some { state with header := h }
  | .sumCol result => some { state with result := result }
  | .names ns => some { state with names := ns }
  | _ => none

/-- Whether a message's tag is one of the five the reducer matches on. -/
def recognizedByReducer : WorkerRecMessage → Bool
  | .parsing _ => true
  | .chunk _ => true
  | .header _ => true
  | .sumCol _ => true
  | .names _ => true
  | _ => false

/-- The initial reducer state passed to `useReducer` (lines 53–59). -/
def initialState : WorkerDataState :=
  { progress := 0, chunk := [], header := [], names := [], result := [] }

/-- The initial metadata passed to `useState` (lines 48–52). -/
def initialMetadata : Metadata :=
  { headerChecked := true, headerCheckBoxDisabled := false, selectedId := 0 }

/-- The `dataWorker.onmessage` handler of `App.tsx` (lines 71–93): given
the current metadata and reducer state and an incoming message, return the
new metadata, the reducer state after any dispatch (`none` if the dispatch
threw), and the list of console-log lines produced. -/
def onmessage (metadata : Metadata) (state : WorkerDataState)
    (data : WorkerRecMessage) : Metadata × Option WorkerDataState × List Str :=
  match data with
  | .chunk payload => (metadata, reducer state (.chunk payload), [])
  | .header payload => (metadata, reducer state (.header payload), [])
  | .parsing payload => (metadata, reducer state (.parsing payload), [])
  | .sumCol payload => (metadata, reducer state (.sumCol payload), [])
  | .names payload => (metadata, reducer state (.names payload), [])
  | .addFilter ns =>
      ({ metadata with selectedId := metadata.selectedId + 1 },
       reducer state (.names ns), [])
  | .unknown _ => (metadata, some state, [str "Unexpected action"])

/-- Folding the reducer over a sequence of messages, propagating the
thrown-error case. -/
def foldMsgs (state : WorkerDataState) :
    List WorkerRecMessage → Option WorkerDataState
  | [] => some state
  | m :: rest =>
    match reducer state m with
    | some s => foldMsgs s rest
    | none => none

/-- `jsSplit` never returns the empty list: every branch yields a cons. -/
theorem jsSplit_ne_nil (sep s : Str) : jsSplit sep s ≠ [] := by
  rw [jsSplit]
  split
  · simp
  · split
    · simp
    · split <;> simp

/-- Joining after consing a character onto the first piece conses it onto
the joined string. -/
theorem joinSep_cons_head (sep : Str) (c : Char) (p : Str) (ps : List Str) :
    joinSep sep ((c :: p) :: ps) = c :: joinSep sep (p :: ps) := by
  cases ps <;> simp [joinSep]

/-- Length-bounded induction form of the split/join inversion. -/
theorem joinSep_jsSplit_aux (sep : Str) (hsep : sep ≠ []) :
    ∀ n s, List.length s ≤ n → joinSep sep (jsSplit sep s) = s := by
  intro n
  induction n with
  | zero =>
    intro s hs
    have hnil : s = [] := by cases s <;> simp_all
    subst hnil
    rw [jsSplit, dif_neg]
    · simp [joinSep]
    · rintro ⟨-, h2⟩
      exact hsep (by simpa using h2.symm)
  | succ n ih =>
    intro s hs
    rw [jsSplit]
    by_cases hpre : sep ≠ [] ∧ s.take sep.length = sep
    · rw [dif_pos hpre]
      obtain ⟨y, t, hyt⟩ : ∃ y t, jsSplit sep (s.drop sep.length) = y :: t := by
        cases hcase : jsSplit sep (s.drop sep.length) with
        | nil => exact absurd hcase (jsSplit_ne_nil sep _)
        | cons y t => exact ⟨y, t, rfl⟩
      have hlen : sep.length ≤ s.length := by
        have := congrArg List.length hpre.2
        simp [List.length_take] at this
        omega
      have hslen : 1 ≤ sep.length := by
        cases hcs : sep with
        | nil => exact absurd hcs hsep
        | cons a l => simp
      have hdrop : (s.drop sep.length).length ≤ n := by
        simp only [List.length_drop]
        omega
      have hrec := ih (s.drop sep.length) hdrop
      rw [hyt] at hrec ⊢
      have hjoin : joinSep sep ([] :: y :: t) = sep ++ joinSep sep (y :: t) := by
        simp [joinSep]
      rw [hjoin, hrec]
      conv_rhs => rw [← List.take_append_drop sep.length s]
      rw [hpre.2]
    · rw [dif_neg hpre]
      cases s with
      | nil => simp [joinSep]
      | cons c rest =>
        obtain ⟨y, t, hyt⟩ : ∃ y t, jsSplit sep rest = y :: t := by
          cases hcase : jsSplit sep rest with
          | nil => exact absurd hcase (jsSplit_ne_nil sep _)
          | cons y t => exact ⟨y, t, rfl⟩
        have hrec := ih rest (by simp at hs; omega)
        rw [hyt] at hrec
        simp only [hyt]
        rw [joinSep_cons_head, hrec]

/-- Splitting on a non-empty separator and joining the pieces back with
the same separator recovers the original string. -/
theorem joinSep_jsSplit (sep : Str) (hsep : sep ≠ []) (s : Str) :
    joinSep sep (jsSplit sep s) = s :=
  joinSep_jsSplit_aux sep hsep s.length s le_rfl

/-- The delimiter token is a non-empty string. -/
theorem delimiterToken_ne_nil : delimiterToken ≠ [] := by
  simp [delimiterToken, str]

set_option maxRecDepth 8000 in
/-- Claim C1, counterexample: the code splits chunk payload strings on the
literal token "DELIMITER_TOKEN", not on the character '#'; for payload
["a#b","c#d"] the resulting chunk is [["a#b"],["c#d"]], which is not the
claimed [["a","b"],["c","d"]]. -/
theorem C1_delim_counterexample :
    reducer initialState (.chunk [str "a#b", str "c#d"]) =
      some { initialState with chunk := [[str "a#b"], [str "c#d"]] } ∧
    [[str "a#b"], [str "c#d"]] ≠ [[str "a", str "b"], [str "c", str "d"]] := by
  constructor
  · have h1 : jsSplit delimiterToken (str "a#b") = [str "a#b"] := by
      simp [jsSplit, delimiterToken, str]
    have h2 : jsSplit delimiterToken (str "c#d") = [str "c#d"] := by
      simp [jsSplit, delimiterToken, str]
    simp [reducer, h1, h2]
  · decide

set_option maxRecDepth 8000 in
/-- Claim C1, amended: a chunk message overwrites the chunk field with the
payload strings each split on the fixed token "DELIMITER_TOKEN", leaving
every other field unchanged; in particular for payload
["aDELIMITER_TOKENb","cDELIMITER_TOKENd"] the rows are
[["a","b"],["c","d"]]. -/
theorem C1_chunk_split_amended (s : WorkerDataState) (payload : List Str) :
    reducer s (.chunk payload) =
      some { progress := s.progress,
             chunk := payload.map (fun column => jsSplit delimiterToken column),
             header := s.header, names := s.names, result := s.result } ∧
    jsSplit delimiterToken (str "aDELIMITER_TOKENb") = [str "a", str "b"] ∧
    jsSplit delimiterToken (str "cDELIMITER_TOKENd") = [str "c", str "d"] := by
  refine ⟨rfl, ?_, ?_⟩ <;> simp [jsSplit, delimiterToken, str]

/-- Claim C2: a parsing message sets the progress field to its payload and
leaves the chunk, header, names and result fields unchanged. -/
theorem C2_parsing_sets_progress (s : WorkerDataState) (p : Int) :
    reducer s (.parsing p) =
      some { progress := p, chunk := s.chunk, header := s.header,
             names := s.names, result := s.result } := rfl

/-- Claim C3: header, sumCol and names messages overwrite exactly the
header, result and names fields with their payloads, leaving every other
field unchanged. -/
theorem C3_direct_overwrites (s : WorkerDataState) (h ns : List Str)
    (r : Str) :
    reducer s (.header h) =
      some { progress := s.progress, chunk := s.chunk, header := h,
             names := s.names, result := s.result } ∧
    reducer s (.sumCol r) =
      some { progress := s.progress, chunk := s.chunk, header := s.header,
             names := s.names, result := r } ∧
    reducer s (.names ns) =
      some { progress := s.progress, chunk := s.chunk, header := s.header,
             names := ns, result := s.result } :=
  ⟨rfl, rfl, rfl⟩

/-- Claim C4: on any message whose tag is not one of the five it matches
(parsing, chunk, header, sumCol, names), the reducer's trailing run call
throws rather than returning a state, modelled as returning none. -/
theorem C4_unrecognized_fails (s : WorkerDataState) (m : WorkerRecMessage)
    (hm : recognizedByReducer m = false) : reducer s m = none := by
  cases m <;> simp_all [recognizedByReducer, reducer]

/-- Witness for claim C4: the addFilter tag is not recognized by the
reducer, and dispatching it directly makes the reducer fail. -/
theorem C4_unrecognized_fails_witness :
    recognizedByReducer (.addFilter [str "a"]) = false ∧
    reducer initialState (.addFilter [str "a"]) = none :=
  ⟨rfl, C4_unrecognized_fails initialState (.addFilter [str "a"]) rfl⟩

/-- Claim C5: a worker message with an unrecognized tag reaches the
otherwise branch of the handler, which only logs "Unexpected action";
the metadata and the reducer state are unchanged and no error is raised. -/
theorem C5_unknown_logged_unchanged (md : Metadata) (s : WorkerDataState)
    (tag : Str) :
    onmessage md s (.unknown tag) = (md, some s, [str "Unexpected action"]) :=
  rfl

/-- Claim C6: an addFilter message increments the metadata's selectedId by
exactly 1 and re-dispatches its names payload, so the reducer state's
names field becomes that payload. -/
theorem C6_addFilter_increments_and_renames (md : Metadata)
    (s : WorkerDataState) (ns : List Str) :
    onmessage md s (.addFilter ns) =
      ({ md with selectedId := md.selectedId + 1 },
       some { s with names := ns }, []) :=
  rfl

/-- Claim C7, counterexample: the reducer copies the parsing payload into
progress without clamping, so folding the single recognized message
parsing 200 from the initial state yields progress 200, outside 0..100. -/
theorem C7_progress_counterexample :
    foldMsgs initialState [WorkerRecMessage.parsing 200] =
      some { initialState with progress := 200 } ∧
    ¬ ((200 : Int) ≤ 100) :=
  ⟨rfl, by decide⟩

/-- If the start state's progress lies in 0..100 and every parsing payload
in the message list lies in 0..100, any state the fold reaches has its
progress in 0..100. -/
theorem foldMsgs_progress_bounded_aux :
    ∀ (msgs : List WorkerRecMessage) (s t : WorkerDataState),
      0 ≤ s.progress → s.progress ≤ 100 →
      (∀ p : Int, WorkerRecMessage.parsing p ∈ msgs → 0 ≤ p ∧ p ≤ 100) →
      foldMsgs s msgs = some t →
      0 ≤ t.progress ∧ t.progress ≤ 100 := by
  intro msgs
  induction msgs with
  | nil =>
    intro s t h0 h1 _ hf
    simp only [foldMsgs] at hf
    cases hf
    exact ⟨h0, h1⟩
  | cons m rest ih =>
    intro s t h0 h1 hb hf
    have hbrest : ∀ p : Int,
        WorkerRecMessage.parsing p ∈ rest → 0 ≤ p ∧ p ≤ 100 :=
      fun p hp => hb p (List.mem_cons_of_mem m hp)
    cases m with
    | parsing p =>
      have hp := hb p (List.mem_cons_self _ _)
      simp only [foldMsgs, reducer] at hf
      exact ih _ t hp.1 hp.2 hbrest hf
    | chunk payload =>
      simp only [foldMsgs, reducer] at hf
      refine ih _ t ?_ ?_ hbrest hf <;> assumption
    | header h =>
      simp only [foldMsgs, reducer] at hf
      refine ih _ t ?_ ?_ hbrest hf <;> assumption
    | sumCol r =>
      simp only [foldMsgs, reducer] at hf
      refine ih _ t ?_ ?_ hbrest hf <;> assumption
    | names ns =>
      simp only [foldMsgs, reducer] at hf
      refine ih _ t ?_ ?_ hbrest hf <;> assumption
    | addFilter ns =>
      simp only [foldMsgs, reducer] at hf
      exact Option.noConfusion hf
    | unknown tag =>
      simp only [foldMsgs, reducer] at hf
      exact Option.noConfusion hf

/-- Claim C7, amended: in every state reachable from the initial state by
folding the reducer over a sequence of recognized messages whose parsing
payloads all lie in 0..100, the progress field lies in 0..100. -/
theorem C7_progress_bounded_amended (msgs : List WorkerRecMessage)
    (t : WorkerDataState)
    (hb : ∀ p : Int, WorkerRecMessage.parsing p ∈ msgs → 0 ≤ p ∧ p ≤ 100)
    (hf : foldMsgs initialState msgs = some t) :
    0 ≤ t.progress ∧ t.progress ≤ 100 :=
  foldMsgs_progress_bounded_aux msgs initialState t (by decide) (by decide)
    hb hf

/-- Witness for claim C7: folding the single message parsing 50 from the
initial state reaches a state whose progress lies in 0..100. -/
theorem C7_progress_bounded_witness :
    0 ≤ (WorkerDataState.mk 50 [] [] [] []).progress ∧
    (WorkerDataState.mk 50 [] [] [] []).progress ≤ 100 :=
  C7_progress_bounded_amended [WorkerRecMessage.parsing 50]
    (WorkerDataState.mk 50 [] [] [] [])
    (by
      intro p hp
      simp only [List.mem_singleton] at hp
      cases hp
      decide)
    rfl

/-- Claim C8: applying the same header message twice in succession yields
the same state as applying it once. -/
theorem C8_header_idempotent (s : WorkerDataState) (h : List Str) :
    (reducer s (.header h)).bind (fun t => reducer t (.header h)) =
      reducer s (.header h) :=
  rfl

/-- Claim C9: a chunk message replaces the chunk field by the payload
strings split on "DELIMITER_TOKEN"; the resulting chunk has the same
length as the payload, and joining each row back with the token recovers
the corresponding payload string in order. -/
theorem C9_chunk_split_join (st : WorkerDataState) (ps : List Str) :
    reducer st (.chunk ps) =
      some { st with
             chunk := ps.map (fun column => jsSplit delimiterToken column) } ∧
    (ps.map (fun column => jsSplit delimiterToken column)).length =
      ps.length ∧
    (ps.map (fun column => jsSplit delimiterToken column)).map
        (fun row => joinSep delimiterToken row) = ps := by
  refine ⟨rfl, List.length_map ps _, ?_⟩
  induction ps with
  | nil => rfl
  | cons a t ih =>
    simp only [List.map_cons]
    rw [joinSep_jsSplit delimiterToken delimiterToken_ne_nil a, ih]

/-- Claim C10: handling an addFilter message changes only the selectedId
field of the metadata; headerChecked and headerCheckBoxDisabled are
unchanged, and selectedId becomes its old value plus 1. -/
theorem C10_addFilter_metadata_frame (md : Metadata) (s : WorkerDataState)
    (ns : List Str) :
    (onmessage md s (.addFilter ns)).1.headerChecked = md.headerChecked ∧
    (onmessage md s (.addFilter ns)).1.headerCheckBoxDisabled =
      md.headerCheckBoxDisabled ∧
    (onmessage md s (.addFilter ns)).1.selectedId = md.selectedId + 1 :=
  ⟨rfl, rfl, rfl⟩
